import Mathlib

/-!
Shallow embedding of the retrieval pipeline of `retrieval_manager.py`
(class `RetrievalManager`): filter extraction (`_extract_filters`),
collection routing (`_route_query`) and search orchestration (`search`).

Strings are modelled over their character lists; `str.lower()` and the
regular expressions used by the source are modelled for ASCII text (all
vocabulary literals in the source are ASCII).
-/

namespace RetrievalManager

/-- ASCII model of Python `str.lower()` on one character code. -/
def lowNat (c : Char) : Nat :=
  let n := c.toNat
  if 65 ≤ n ∧ n ≤ 90 then n + 32 else n

/-- `\d` of the price regexes: an ASCII digit. -/
def isDigitChar (c : Char) : Bool :=
  decide (48 ≤ c.toNat) && decide (c.toNat ≤ 57)

/-- `\s` of the price regexes: ASCII whitespace `[ \t\n\v\f\r]`. -/
def isSpaceChar (c : Char) : Bool :=
  decide (c.toNat = 32) || (decide (9 ≤ c.toNat) && decide (c.toNat ≤ 13))

/-- `\w` of the `\b` word-boundary semantics: `[A-Za-z0-9_]` (ASCII). -/
def isWordChar (c : Char) : Bool :=
  (decide (48 ≤ c.toNat) && decide (c.toNat ≤ 57)) ||
  (decide (65 ≤ c.toNat) && decide (c.toNat ≤ 90)) ||
  (decide (97 ≤ c.toNat) && decide (c.toNat ≤ 122)) ||
  decide (c.toNat = 95)

/-- `needle` is a prefix of the lowercasing of `hay` (needle taken verbatim,
hay lowered): models Python `hay.lower().startswith(needle)`. -/
def startsLowered : List Char → List Char → Bool
  | [], _ => true
  | _ :: _, [] => false
  | n :: ns, c :: cs => decide (n.toNat = lowNat c) && startsLowered ns cs

/-- Models Python `needle in hay.lower()` (case-sensitive substring search of
`needle` inside the lowercased `hay`). -/
def containsLowered (needle hay : List Char) : Bool :=
  hay.tails.any (startsLowered needle)

/-- Case-insensitive prefix test (both sides lowered): models matching a
`re.IGNORECASE` literal at the start of the text. -/
def startsCI : List Char → List Char → Bool
  | [], _ => true
  | _ :: _, [] => false
  | n :: ns, c :: cs => decide (lowNat n = lowNat c) && startsCI ns cs

/-- Case-sensitive substring test: models Python `needle in hay`. -/
def containsPlain (needle hay : List Char) : Bool :=
  hay.tails.any (needle.isPrefixOf)

/-- Value of a digit string (digits already guaranteed by the regex). -/
def digitsToNat (cs : List Char) : Nat :=
  cs.foldl (fun acc c => 10 * acc + (c.toNat - 48)) 0

/-- Numeric reading of a capture of `\d+\.?\d*`, as an exact rational
(models Python `float(...)` on the captured text). -/
def parseAmount (cs : List Char) : ℚ :=
  let ip := cs.takeWhile isDigitChar
  match cs.dropWhile isDigitChar with
  | '.' :: fp => (digitsToNat ip : ℚ) + (digitsToNat fp : ℚ) / (10 ^ fp.length : ℚ)
  | _ => (digitsToNat ip : ℚ)

/-- Matches the regex tail `\s*\$?(\d+\.?\d*)` at the start of `s`,
returning the capture group (the character classes `\s`, `\$`, `\d`, `\.`
are pairwise disjoint, so greedy matching needs no backtracking). -/
def matchAmountTail (s : List Char) : Option (List Char) :=
  let afterSpaces := s.dropWhile isSpaceChar
  let afterDollar := match afterSpaces with
    | '$' :: t => t
    | t => t
  let intPart := afterDollar.takeWhile isDigitChar
  if intPart.isEmpty then none
  else
    match afterDollar.dropWhile isDigitChar with
    | '.' :: rest => some (intPart ++ '.' :: rest.takeWhile isDigitChar)
    | _ => some intPart

/-- Tries the alternatives of `(?:alt1|alt2|...)\s*\$?(\d+\.?\d*)` at one
start position, in the source's alternation order. -/
def matchAltsAt (alts : List (List Char)) (s : List Char) : Option (List Char) :=
  alts.findSome? (fun alt =>
    if startsCI alt s then matchAmountTail (s.drop alt.length) else none)

/-- Models `re.search` for a price pattern: leftmost start position wins,
alternatives tried in order at each position; returns the capture group. -/
def reSearchAmount (alts : List (List Char)) (s : List Char) : Option (List Char) :=
  s.tails.findSome? (matchAltsAt alts)

/-- Alternatives of the `"lt"` price pattern
`(?:under|less than|below|max of|\$lt)`. -/
def ltAlts : List (List Char) :=
  [String.data "under", String.data "less than", String.data "below",
   String.data "max of", String.data "$lt"]

/-- Alternatives of the `"gt"` price pattern
`(?:over|more than|above|min of|\$gt)`. -/
def gtAlts : List (List Char) :=
  [String.data "over", String.data "more than", String.data "above",
   String.data "min of", String.data "$gt"]

/-- One term of the metadata filter list built by `_extract_filters`:
`{"price": {op: v}}`, `{"brand": b}` or `{"category": c}`. -/
inductive Filter where
  | price (op : String) (v : ℚ)
  | brand (b : String)
  | category (c : String)
deriving DecidableEq, Repr

def Filter.isPrice : Filter → Bool
  | .price _ _ => true
  | _ => false

def Filter.isBrand : Filter → Bool
  | .brand _ => true
  | _ => false

def Filter.isCategory : Filter → Bool
  | .category _ => true
  | _ => false

/-- The price-filter part of `_extract_filters`: the `price_patterns` dict is
iterated in insertion order (`"lt"` then `"gt"`), each hit appending one
`{"price": {"$op": float(group(1))}}` term. -/
def priceFilters (q : List Char) : List Filter :=
  (match reSearchAmount ltAlts q with
    | some cap => [Filter.price "$lt" (parseAmount cap)]
    | none => []) ++
  (match reSearchAmount gtAlts q with
    | some cap => [Filter.price "$gt" (parseAmount cap)]
    | none => [])

/-- Index `i` of `s` holds a word character (`false` out of range). -/
def wordAt (s : List Char) (i : Nat) : Bool :=
  match s.drop i with
  | c :: _ => isWordChar c
  | [] => false

/-- Regex `\b` at position `i` of `s`: exactly one of the two surrounding
positions holds a word character (positions outside `s` count as non-word). -/
def boundaryAt (s : List Char) (i : Nat) : Bool :=
  (decide (i ≠ 0) && wordAt s (i - 1)) != wordAt s i

/-- The pattern `\b<brand>\b` (brand escaped, `re.IGNORECASE`) matches at
position `i` of `s`. -/
def wholeWordMatchAt (brand s : List Char) (i : Nat) : Bool :=
  startsCI brand (s.drop i) && boundaryAt s i && boundaryAt s (i + brand.length)

/-- Models `re.search(r'\b' + re.escape(brand) + r'\b', s, re.IGNORECASE)`
being a hit (only existence of a match is used by the source). -/
def wholeWordMatch (brand : String) (s : List Char) : Bool :=
  (List.range (s.length + 1)).any (wholeWordMatchAt brand.data s)

/-- Stable insert for a length-descending sort. -/
def insertLenDesc (x : String) : List String → List String
  | [] => [x]
  | y :: ys => if y.length > x.length then y :: insertLenDesc x ys else x :: y :: ys

/-- Models Python `sorted(names, key=len, reverse=True)` (stable: names of
equal length keep their original relative order). -/
def sortLenDesc : List String → List String
  | [] => []
  | x :: xs => insertLenDesc x (sortLenDesc xs)

/-- The vocabulary loaded from `filterable_metadata.json`. -/
structure Metadata where
  brands : List String
  categories : List String
deriving DecidableEq, Repr

/-- The brand loop of `_extract_filters`: brands sorted longest first, first
whole-word case-insensitive hit wins (the loop breaks after one append). -/
def findBrand (brands : List String) (q : List Char) : Option String :=
  (sortLenDesc brands).find? (fun b => wholeWordMatch b q)

def brandFilters (md : Metadata) (q : List Char) : List Filter :=
  match findBrand md.brands q with
  | some b => [Filter.brand b]
  | none => []

/-- The priority term set of the hard category override. -/
def priorityTerms : List String := ["laptop", "computer", "pc"]

/-- The marker string of the hard category override. -/
def categoryMarker : String := "Computers and Laptops"

/-- The hard override of category extraction: if the lowercased query
contains a priority term, the first vocabulary category whose name contains
`"Computers and Laptops"` is force-matched (the loop breaks at the first). -/
def priorityCategory (cats : List String) (q : List Char) : Option String :=
  if priorityTerms.any (fun t => containsLowered t.data q) then
    cats.find? (fun c => containsPlain categoryMarker.data c.data)
  else none

/-- `CATEGORY_SYNONYMS` of `_extract_filters`, in source (insertion) order. -/
def CATEGORY_SYNONYMS : List (String × List String) :=
  [("Computers and Laptops",
    ["laptop", "laptops", "computer", "notebook", "ultrabook",
     "chromebook", "PC", "desktop", "workstation", "gaming laptop"]),
   ("Cameras and Camcorders",
    ["camera", "cameras", "camcorder", "photo", "video camera"]),
   ("Gaming Consoles and Accessories",
    ["console", "gaming", "games", "controller"]),
   ("Smartphones and Accessories",
    ["phone", "smartphone", "mobile", "case", "charger"]),
   ("Audio Equipment",
    ["audio", "speaker", "headphone", "earbud", "sound"]),
   ("Televisions and Home Theater Systems",
    ["tv", "television", "home theater", "soundbar", "tvs"])]

/-- `priority_categories` of `_extract_filters`. -/
def priorityCategories : List String :=
  ["Computers and Laptops", "Cameras and Camcorders", "Smartphones and Accessories"]

/-- Number of words of a synonym, as Python `len(syn.split())`: maximal
runs of non-whitespace characters are counted. -/
def numWords (s : String) : Nat :=
  (s.data.foldl
    (fun (acc : Nat × Bool) c =>
      if isSpaceChar c then (acc.1, false)
      else if acc.2 then acc else (acc.1 + 1, true))
    (0, false)).1

/-- Synonym list of a category in `CATEGORY_SYNONYMS`. -/
def synonymsOf (cat : String) : List String :=
  match CATEGORY_SYNONYMS.find? (fun p => p.1 = cat) with
  | some p => p.2
  | none => []

/-- Phase 1 of the synonym search: priority categories whose multi-word
synonyms occur in the lowercased query. -/
def synonymPhase1 (q : List Char) : List String :=
  priorityCategories.filter (fun cat =>
    ((synonymsOf cat).filter (fun syn => numWords syn > 1)).any
      (fun syn => containsLowered syn.data q))

/-- Phase 2 of the synonym search: all categories one of whose single-word
synonyms occurs in the lowercased query, in `CATEGORY_SYNONYMS` key order. -/
def synonymPhase2 (q : List Char) : List String :=
  (CATEGORY_SYNONYMS.map Prod.fst).filter (fun cat =>
    ((synonymsOf cat).filter (fun syn => numWords syn == 1)).any
      (fun syn => containsLowered syn.data q))

/-- `matched_categories` of the synonym search: phase 2 runs only when
phase 1 matched nothing. (The source collects into a Python `set`; each
category key is visited once per phase, so the set is modelled as the
duplicate-free list in visit order — no claim depends on set order.) -/
def synonymCategories (q : List Char) : List String :=
  match synonymPhase1 q with
  | [] => synonymPhase2 q
  | m => m

/-- The category part of `_extract_filters`: the hard override appends its
term first (line 128), then every synonym-matched category is appended
(lines 184-185) — the synonym search runs whether or not the override fired. -/
def categoryFilters (md : Metadata) (q : List Char) : List Filter :=
  (match priorityCategory md.categories q with
    | some c => [Filter.category c]
    | none => []) ++
  (synonymCategories q).map Filter.category

/-- The full filter-term list built by `_extract_filters`, in append order:
price terms, then the brand term, then category terms. Brand and category
filtering run only when `filterable_metadata` was loaded (`md = some _`). -/
def extractFilterList (md : Option Metadata) (query : String) : List Filter :=
  match md with
  | none => priceFilters query.data
  | some m =>
      priceFilters query.data ++ brandFilters m query.data ++
        categoryFilters m query.data

/-- The `where` filter dictionary: empty for no terms, the sole term
directly for one, `{"$or": terms}` for several (lines 193-199). -/
inductive WhereFilter where
  | empty
  | single (f : Filter)
  | or (fs : List Filter)
deriving DecidableEq, Repr

def buildWhere (filters : List Filter) : WhereFilter :=
  match filters with
  | [] => .empty
  | [f] => .single f
  | fs => .or fs

/-- `_extract_filters`: returns the `where` filter and the cleaned query.
`cleaned_query` is initialized to the query and never modified (all
stripping code in the source is commented out), so it is returned as is. -/
def extract_filters (md : Option Metadata) (query : String) : WhereFilter × String :=
  let cleaned_query := query
  (buildWhere (extractFilterList md query), cleaned_query)

/-- `review_keywords` of `_route_query`. -/
def review_keywords : List String :=
  ["review", "customer", "feedback", "complaints", "say about", "opinion", "experience"]

/-- `product_keywords` of `_route_query`. -/
def product_keywords : List String :=
  ["specs", "features", "have", "available", "do you have",
   "specification", "technical details", "price", "warranty"]

/-- `any(keyword in query_lower for keyword in kws)`. -/
def hasKeyword (kws : List String) (query : String) : Bool :=
  kws.any (fun k => containsLowered k.data query.data)

/-- `_route_query`: "reviews" on a review keyword, "products" on a product
keyword, both (in that order of checks) when both match, and the default
`["products", "reviews"]` when neither matches. -/
def route_query (query : String) : List String :=
  let targets :=
    (if hasKeyword review_keywords query then ["reviews"] else []) ++
    (if hasKeyword product_keywords query then ["products"] else [])
  if targets = [] then ["products", "reviews"] else targets

/-- One retrieved item of a collection query (`distance`: lower is closer). -/
structure ResultItem where
  id : String
  distance : ℚ
deriving DecidableEq, Repr

/-- The per-collection result cap: `n_results = 5 if collection_name ==
"products" else 8`. -/
def n_results_for (name : String) : Nat :=
  if name = "products" then 5 else 8

/-- One iteration of the step-4 loop of `search`: the store call is wrapped
in `try/except`, any raised error is replaced by the empty result list. -/
def querySafe (store : String → Nat → WhereFilter → Except String (List ResultItem))
    (wf : WhereFilter) (name : String) : List ResultItem :=
  match store name (n_results_for name) wf with
  | .ok items => items
  | .error _ => []

/-- The text `search` hands to the embedding provider:
`cleaned_query if cleaned_query else query` (empty string is falsy). -/
def embedding_query_of (md : Option Metadata) (query : String) : String :=
  let cleaned_query := (extract_filters md query).2
  if cleaned_query = "" then query else cleaned_query

/-- `search`: extract filters, route on the original query, and query every
target collection with the shared filter and its per-collection cap; the
result is the mapping `collection name ↦ retrieved items` (as an association
list in routing order — the loop writes each distinct target name once). -/
def search (md : Option Metadata)
    (store : String → Nat → WhereFilter → Except String (List ResultItem))
    (query : String) : List (String × List ResultItem) :=
  let wf := (extract_filters md query).1
  (route_query query).map (fun name => (name, querySafe store wf name))

/-- A demonstration backend whose "products" collection raises and whose
other collections return one review item. -/
def demoFailingStore : String → Nat → WhereFilter → Except String (List ResultItem) :=
  fun name _ _ =>
    if name = "products" then .error "collection missing"
    else .ok [⟨"review-1", 1⟩]

/-- A demonstration backend that always answers with no items. -/
def demoEmptyStore : String → Nat → WhereFilter → Except String (List ResultItem) :=
  fun _ _ _ => .ok []

end RetrievalManager

namespace RetrievalManager

/-! Helper lemmas. -/

theorem mem_priceFilters_isPrice (q : List Char) :
    ∀ f ∈ priceFilters q, f.isPrice = true := by
  intro f h
  unfold priceFilters at h
  cases hlt : reSearchAmount ltAlts q <;> cases hgt : reSearchAmount gtAlts q <;>
    rw [hlt, hgt] at h <;> simp at h <;>
    rcases h with rfl | rfl <;> rfl

theorem mem_categoryFilters_isCategory (md : Metadata) (q : List Char) :
    ∀ f ∈ categoryFilters md q, f.isCategory = true := by
  intro f h
  unfold categoryFilters at h
  cases hp : priorityCategory md.categories q <;> rw [hp] at h <;> simp at h
  · rcases h with ⟨c, _, rfl⟩; rfl
  · rcases h with rfl | ⟨c, _, rfl⟩ <;> rfl

theorem isPrice_not_isBrand {f : Filter} (h : f.isPrice = true) : f.isBrand = false := by
  cases f <;> simp_all [Filter.isPrice, Filter.isBrand]

theorem isCategory_not_isBrand {f : Filter} (h : f.isCategory = true) : f.isBrand = false := by
  cases f <;> simp_all [Filter.isCategory, Filter.isBrand]

theorem mem_insertLenDesc {a x : String} {l : List String} :
    a ∈ insertLenDesc x l ↔ a = x ∨ a ∈ l := by
  induction l with
  | nil => simp [insertLenDesc]
  | cons y ys ih =>
      simp only [insertLenDesc]
      split
      · simp only [List.mem_cons, ih]
        tauto
      · simp [List.mem_cons]

theorem mem_sortLenDesc {a : String} {l : List String} :
    a ∈ sortLenDesc l ↔ a ∈ l := by
  induction l with
  | nil => simp [sortLenDesc]
  | cons x xs ih => simp [sortLenDesc, mem_insertLenDesc, ih]

theorem buildWhere_of_gt_one {fs : List Filter} (h : 1 < fs.length) :
    buildWhere fs = .or fs := by
  match fs with
  | [] => simp at h
  | [f] => simp at h
  | a :: b :: t => rfl

/-! Claim theorems. -/

/-- C1 counterexample: for the query "laptop" with the category vocabulary
loaded, the hard override fires, but the synonym-table lookup is not
skipped: it contributes a second category term, so the extracted filter
list carries the "Computers and Laptops" term twice. -/
theorem C1_counterexample :
    priorityCategory ["Computers and Laptops"] (String.data "laptop") =
      some "Computers and Laptops" ∧
    synonymCategories (String.data "laptop") = ["Computers and Laptops"] ∧
    extractFilterList (some ⟨[], ["Computers and Laptops"]⟩) "laptop" =
      [Filter.category "Computers and Laptops",
       Filter.category "Computers and Laptops"] :=
  ⟨by decide, by decide, by decide⟩

/-- C1 (amended): for every query whose lowercased text contains "laptop",
"computer" or "pc", with the vocabulary loaded, filter extraction
force-matches the first category whose canonical name contains
"Computers and Laptops"; however the synonym-table lookup still runs and
its matches are appended after the forced term. -/
theorem C1_priority_category_forced (md : Metadata) (q : String) (c : String)
    (h1 : ∃ t ∈ priorityTerms, containsLowered t.data q.data = true)
    (h2 : md.categories.find?
      (fun cat => containsPlain categoryMarker.data cat.data) = some c) :
    Filter.category c ∈ extractFilterList (some md) q ∧
    extractFilterList (some md) q =
      priceFilters q.data ++ brandFilters md q.data ++
        (Filter.category c :: (synonymCategories q.data).map Filter.category) := by
  have hcond : priorityTerms.any (fun t => containsLowered t.data q.data) = true := by
    rcases h1 with ⟨t, ht, hc⟩
    exact List.any_eq_true.mpr ⟨t, ht, hc⟩
  have hpc : priorityCategory md.categories q.data = some c := by
    simp only [priorityCategory, hcond, if_true]
    exact h2
  have hcat : categoryFilters md q.data =
      Filter.category c :: (synonymCategories q.data).map Filter.category := by
    unfold categoryFilters
    rw [hpc]
    rfl
  constructor
  · simp [extractFilterList, hcat]
  · simp [extractFilterList, hcat]

theorem C1_priority_category_forced_witness :
    Filter.category "Computers and Laptops" ∈
      extractFilterList (some ⟨[], ["Computers and Laptops"]⟩) "my laptop" ∧
    extractFilterList (some ⟨[], ["Computers and Laptops"]⟩) "my laptop" =
      priceFilters (String.data "my laptop") ++
        brandFilters ⟨[], ["Computers and Laptops"]⟩ (String.data "my laptop") ++
        (Filter.category "Computers and Laptops" ::
          (synonymCategories (String.data "my laptop")).map Filter.category) :=
  C1_priority_category_forced ⟨[], ["Computers and Laptops"]⟩ "my laptop"
    "Computers and Laptops" ⟨"laptop", by decide, by decide⟩ (by decide)

/-- C2: predicate assembly — no filter terms give the empty (match-all)
predicate, one term is used directly, several terms are joined by `$or`;
and a query with both "under $300" and "over $100" yields the predicate
`$or` of `price < 300` and `price > 100`. -/
theorem C2_predicate_assembly :
    (∀ (md : Option Metadata) (q : String), extractFilterList md q = [] →
      (extract_filters md q).1 = .empty) ∧
    (∀ (md : Option Metadata) (q : String) (f : Filter), extractFilterList md q = [f] →
      (extract_filters md q).1 = .single f) ∧
    (∀ (md : Option Metadata) (q : String), 1 < (extractFilterList md q).length →
      (extract_filters md q).1 = .or (extractFilterList md q)) ∧
    (extract_filters (some ⟨["TechPro"], ["Computers and Laptops"]⟩)
        "gadgets under $300 and over $100").1 =
      .or [Filter.price "$lt" 300, Filter.price "$gt" 100] := by
  refine ⟨?_, ?_, ?_, by decide⟩
  · intro md q h
    simp [extract_filters, h, buildWhere]
  · intro md q f h
    simp [extract_filters, h, buildWhere]
  · intro md q h
    simp [extract_filters, buildWhere_of_gt_one h]

theorem C2_predicate_assembly_witness :
    (extract_filters none "camcorders").1 = .empty ∧
    (extract_filters none "widgets under $300").1 = .single (Filter.price "$lt" 300) ∧
    (extract_filters none "widgets under $300 and over $100").1 =
      .or (extractFilterList none "widgets under $300 and over $100") :=
  ⟨C2_predicate_assembly.1 none "camcorders" (by decide),
   C2_predicate_assembly.2.1 none "widgets under $300" (Filter.price "$lt" 300) (by decide),
   C2_predicate_assembly.2.2.1 none "widgets under $300 and over $100" (by decide)⟩

/-- C4 counterexample: extraction returns the query unchanged, so for
`search("")` the fallback text handed to the embedding provider is the
empty string itself — contradicting "an empty string is never passed to
the embedding provider". -/
theorem C4_counterexample :
    (extract_filters none "").2 = "" ∧ embedding_query_of none "" = "" :=
  ⟨rfl, rfl⟩

/-- C4 (amended): if the extracted embedding text is empty, `search` falls
back to the raw query; since extraction returns the query unchanged, the
text handed to the embedding provider always equals the raw query — in
particular `search("")` does not throw, but it passes the empty string
itself to the embedding provider. -/
theorem C4_embedding_fallback (md : Option Metadata) (q : String) :
    embedding_query_of md q = q := by
  change (if q = "" then q else q) = q
  split <;> rfl

/-- C5: routing matches the two fixed keyword lists case-insensitively as
substrings; review keywords add "reviews", product keywords add
"products", both add both, neither defaults to both collections, and the
returned list is never empty. -/
theorem C5_route_query (q : String) :
    (hasKeyword review_keywords q = true → "reviews" ∈ route_query q) ∧
    (hasKeyword product_keywords q = true → "products" ∈ route_query q) ∧
    (hasKeyword review_keywords q = true → hasKeyword product_keywords q = true →
      route_query q = ["reviews", "products"]) ∧
    (hasKeyword review_keywords q = false → hasKeyword product_keywords q = false →
      route_query q = ["products", "reviews"]) ∧
    (hasKeyword review_keywords q = true → hasKeyword product_keywords q = false →
      route_query q = ["reviews"]) ∧
    route_query q ≠ [] := by
  cases hr : hasKeyword review_keywords q <;> cases hp : hasKeyword product_keywords q <;>
    simp [route_query, hr, hp]

theorem C5_route_query_witness :
    "reviews" ∈ route_query "any feedback?" ∧
    route_query "any feedback?" = ["reviews"] :=
  ⟨(C5_route_query "any feedback?").1 (by decide),
   (C5_route_query "any feedback?").2.2.2.2.1 (by decide) (by decide)⟩

/-- C7: the embedding text returned by filter extraction is the input query
itself, for every vocabulary state and every query — extracted phrases are
not stripped. -/
theorem C7_embedding_text_unmodified (md : Option Metadata) (q : String) :
    (extract_filters md q).2 = q := rfl

/-- C10: the literal tokens "$lt" and "$gt" also act as bound markers: a
query containing "$lt 100" (resp. "$gt 20") and none of the documented
bound phrases still gains the corresponding price term. -/
theorem C10_dollar_op_tokens :
    (extract_filters none "gizmos $lt 100").1 = .single (Filter.price "$lt" 100) ∧
    (extract_filters none "gizmos $gt 20").1 = .single (Filter.price "$gt" 20) :=
  ⟨by decide, by decide⟩

/-- C3: a store error on one target collection is recorded as an empty
result list for that collection, every other target collection's
successful results appear intact in the output, and the error is never
propagated (`search` is total and returns the full mapping). -/
theorem C3_error_isolation (md : Option Metadata)
    (store : String → Nat → WhereFilter → Except String (List ResultItem))
    (q name e : String)
    (hmem : name ∈ route_query q)
    (herr : store name (n_results_for name) (extract_filters md q).1 = .error e) :
    (name, ([] : List ResultItem)) ∈ search md store q ∧
    ∀ (other : String) (items : List ResultItem), other ∈ route_query q →
      store other (n_results_for other) (extract_filters md q).1 = .ok items →
      (other, items) ∈ search md store q := by
  constructor
  · exact List.mem_map.mpr ⟨name, hmem, by simp [querySafe, herr]⟩
  · intro other items ho hok
    exact List.mem_map.mpr ⟨other, ho, by simp [querySafe, hok]⟩

theorem C3_error_isolation_witness :
    ("products", ([] : List ResultItem)) ∈ search none demoFailingStore "hello" ∧
    ("reviews", [⟨"review-1", 1⟩]) ∈ search none demoFailingStore "hello" := by
  have h := C3_error_isolation none demoFailingStore "hello" "products"
    "collection missing" (by decide) rfl
  exact ⟨h.1, h.2 "reviews" [⟨"review-1", 1⟩] (by decide) rfl⟩

/-- C6: scanning known brands longest name first with whole-word
case-insensitive matching, the first hit wins: even when at least two
known brands match the query, exactly one brand term is in the filter
list, and a brand term is present exactly for the brand found first. -/
theorem C6_single_brand_term (md : Metadata) (q : String)
    (h : 2 ≤ ((md.brands).filter (fun b => wholeWordMatch b q.data)).length) :
    (extractFilterList (some md) q).countP Filter.isBrand = 1 ∧
    ∀ b : String, Filter.brand b ∈ extractFilterList (some md) q ↔
      findBrand md.brands q.data = some b := by
  have hne : (md.brands.filter (fun b => wholeWordMatch b q.data)) ≠ [] := by
    intro hnil
    rw [hnil] at h
    simp at h
  obtain ⟨b₀, hb₀⟩ := List.exists_mem_of_ne_nil _ hne
  have hb₀' := List.mem_filter.mp hb₀
  have hsome : ((sortLenDesc md.brands).find? (fun b => wholeWordMatch b q.data)).isSome := by
    rw [List.find?_isSome]
    exact ⟨b₀, mem_sortLenDesc.mpr hb₀'.1, hb₀'.2⟩
  obtain ⟨b₁, hb₁⟩ := Option.isSome_iff_exists.mp hsome
  have hfb : findBrand md.brands q.data = some b₁ := hb₁
  have hbf : brandFilters md q.data = [Filter.brand b₁] := by
    unfold brandFilters
    rw [hfb]
  have h1 : (priceFilters q.data).countP Filter.isBrand = 0 :=
    List.countP_eq_zero.mpr (fun f hf => by
      simp [isPrice_not_isBrand (mem_priceFilters_isPrice q.data f hf)])
  have h2 : (categoryFilters md q.data).countP Filter.isBrand = 0 :=
    List.countP_eq_zero.mpr (fun f hf => by
      simp [isCategory_not_isBrand (mem_categoryFilters_isCategory md q.data f hf)])
  constructor
  · show (priceFilters q.data ++ brandFilters md q.data ++
      categoryFilters md q.data).countP Filter.isBrand = 1
    rw [List.countP_append, List.countP_append, hbf]
    simp [h1, h2, List.countP_cons, Filter.isBrand]
  · intro b
    constructor
    · intro hmem
      rcases List.mem_append.mp hmem with hm | hm
      · rcases List.mem_append.mp hm with hm' | hm'
        · exact absurd (mem_priceFilters_isPrice q.data _ hm') (by simp [Filter.isPrice])
        · rw [hbf] at hm'
          simp at hm'
          rw [hm']
          exact hfb
      · exact absurd (mem_categoryFilters_isCategory md q.data _ hm)
          (by simp [Filter.isCategory])
    · intro hf2
      have hbf2 : brandFilters md q.data = [Filter.brand b] := by
        unfold brandFilters
        rw [hf2]
      show Filter.brand b ∈ priceFilters q.data ++ brandFilters md q.data ++
        categoryFilters md q.data
      simp [hbf2]

theorem C6_single_brand_term_witness :
    (extractFilterList (some ⟨["TechPro", "SmartX"], []⟩)
      "TechPro or SmartX").countP Filter.isBrand = 1 ∧
    (Filter.brand "TechPro" ∈
        extractFilterList (some ⟨["TechPro", "SmartX"], []⟩) "TechPro or SmartX" ↔
      findBrand ["TechPro", "SmartX"] (String.data "TechPro or SmartX") = some "TechPro") :=
  ⟨(C6_single_brand_term ⟨["TechPro", "SmartX"], []⟩ "TechPro or SmartX" (by decide)).1,
   (C6_single_brand_term ⟨["TechPro", "SmartX"], []⟩ "TechPro or SmartX" (by decide)).2
     "TechPro"⟩

/-- C8: the store query for "products" is issued with a cap of 5 and the
query for any other collection with a cap of 8; assuming the store honors
the requested cap and returns items sorted by non-decreasing distance,
every per-collection result list of `search` respects its cap and that
ordering. -/
theorem C8_result_caps (md : Option Metadata)
    (store : String → Nat → WhereFilter → Except String (List ResultItem))
    (q : String)
    (hcap : ∀ name n wf items, store name n wf = .ok items → items.length ≤ n)
    (hsorted : ∀ name n wf items, store name n wf = .ok items →
      items.Chain' (fun a b => a.distance ≤ b.distance)) :
    n_results_for "products" = 5 ∧
    (∀ name : String, name ≠ "products" → n_results_for name = 8) ∧
    ∀ name items, (name, items) ∈ search md store q →
      items.length ≤ n_results_for name ∧
      items.Chain' (fun a b => a.distance ≤ b.distance) := by
  refine ⟨rfl, ?_, ?_⟩
  · intro name hname
    simp [n_results_for, hname]
  · intro name items hmem
    simp only [search] at hmem
    rcases List.mem_map.mp hmem with ⟨n, hn, heq⟩
    rw [Prod.ext_iff] at heq
    obtain ⟨rfl, rfl⟩ := heq
    unfold querySafe
    cases hs : store n (n_results_for n) (extract_filters md q).1 with
    | ok its => exact ⟨hcap _ _ _ _ hs, hsorted _ _ _ _ hs⟩
    | error e => simp

theorem C8_result_caps_witness :
    n_results_for "products" = 5 ∧ n_results_for "reviews" = 8 ∧
    (([] : List ResultItem).length ≤ n_results_for "products" ∧
      List.Chain' (fun a b => a.distance ≤ b.distance) ([] : List ResultItem)) := by
  have h := C8_result_caps none demoEmptyStore "hello"
    (fun name n wf items hs => by
      simp only [demoEmptyStore] at hs
      injection hs with hi
      subst hi
      simp)
    (fun name n wf items hs => by
      simp only [demoEmptyStore] at hs
      injection hs with hi
      subst hi
      simp)
  exact ⟨h.1, h.2.1 "reviews" (by decide), h.2.2 "products" [] (by decide)⟩

/-- C9: extraction is a total function; with no vocabulary loaded the
filter list consists of price terms only (brand and category filtering
silently skipped), and with any vocabulary loaded the same price terms
are still extracted (price filtering unaffected). -/
theorem C9_vocabulary_degradation (q : String) :
    extractFilterList none q = priceFilters q.data ∧
    (∀ f ∈ extractFilterList none q, f.isPrice = true) ∧
    (∀ md : Metadata, ∃ rest, extractFilterList (some md) q = priceFilters q.data ++ rest) := by
  refine ⟨rfl, ?_, ?_⟩
  · exact fun f hf => mem_priceFilters_isPrice q.data f hf
  · intro md
    exact ⟨brandFilters md q.data ++ categoryFilters md q.data,
      by simp [extractFilterList, List.append_assoc]⟩

theorem C9_vocabulary_degradation_witness :
    extractFilterList none "widgets under $50" =
      priceFilters (String.data "widgets under $50") ∧
    (Filter.price "$lt" 50).isPrice = true :=
  ⟨(C9_vocabulary_degradation "widgets under $50").1,
   (C9_vocabulary_degradation "widgets under $50").2.1 (Filter.price "$lt" 50) (by decide)⟩

end RetrievalManager
